import Mathlib

/-!
Shallow embedding of the Phones-BackEnd REST API (Express + Mongoose) and
verification of its specification claims.

Source files embedded:
* `src/models/Phones.js` — the Phone record shape.
* `src/routes/phones.js` (first variant) — collection GET with opt-in
  pagination, POST create, POST /seed, detail GET with If-Modified-Since,
  PUT replace, DELETE.
* `src/unnamed/part_001` lines 451–499 — the complete PATCH handler variant
  covering all six mutable fields (the variants at `src/routes/phones.js`
  lines 288–332 and 686–746 are the same logic restricted to subsets of the
  fields).
* `src/middleware/methodOverride.js` — the POST method-override step.

The document store (Mongoose/MongoDB) is modelled as a `List Phone`;
`find`/`countDocuments`/`findByIdAndUpdate` become list filtering and
pointwise update.  JavaScript regular expressions (an external collaborator)
are modelled by a matcher covering the fragment actually reachable in this
development: literal characters plus the `.` wildcard under the `i` flag.
JavaScript numbers produced by `parseInt` are modelled as `Option Int`,
with `none` playing the role of `NaN`.
-/

namespace PhonesApi

/-- Phone record, after `src/models/Phones.js`: `title`, `brand`,
`description`, `imageUrl` are required strings, `reviews` is an optional
string, `hasBookmark` a boolean defaulting to false, and `date` a timestamp
(modelled as milliseconds since the epoch).  The store-assigned identifier
is modelled as a `Nat`. -/
structure Phone where
  id : Nat
  title : String
  brand : String
  description : String
  imageUrl : String
  reviews : Option String
  hasBookmark : Bool
  date : Int
deriving Repr, DecidableEq

/-- JavaScript values that can appear in a parsed JSON request body. -/
inductive JsVal where
  | str (s : String)
  | boolean (b : Bool)
  | num (n : Int)
  | null
deriving Repr, DecidableEq

/-- Characters of the ASCII part of the JavaScript whitespace class used
by `String.prototype.trim` and skipped by `parseInt`. -/
def isJsSpace (c : Char) : Bool :=
  c = ' ' || c = '\t' || c = '\n' || c = '\r' || c = '\x0b' || c = '\x0c'

/-- Model of `String.prototype.trim`: strips leading and trailing
whitespace. -/
def jsTrim (s : String) : String :=
  ⟨((s.toList.dropWhile isJsSpace).reverse.dropWhile isJsSpace).reverse⟩

/-- Model of `String.prototype.toUpperCase` on ASCII data. -/
def jsToUpper (s : String) : String :=
  ⟨s.toList.map Char.toUpper⟩

/-- Embeds `nonEmptyString` from `src/routes/phones.js`:
`typeof v === "string" && v.trim().length > 0`. -/
def nonEmptyString : JsVal → Bool
  | .str s => (jsTrim s).length > 0
  | _ => false

/-- Lifts `nonEmptyString` to a possibly-absent body field
(`nonEmptyString(undefined)` is `false` in the source). -/
def nonEmptyStringO : Option JsVal → Bool
  | some v => nonEmptyString v
  | none => false

/-- String content of a body field; only consulted under a
`nonEmptyString` guard, where the value is known to be a string. -/
def jsStr : Option JsVal → String
  | some (.str s) => s
  | _ => ""

/-- Numeric value of a sequence of decimal digit characters. -/
def digitsVal (ds : List Char) : Nat :=
  ds.foldl (fun a c => a * 10 + (c.toNat - 48)) 0

/-- Longest leading run of decimal digits, or `none` when there is none. -/
def leadingNat (cs : List Char) : Option Nat :=
  match cs.takeWhile (·.isDigit) with
  | [] => none
  | ds => some (digitsVal ds)

/-- Model of JavaScript `parseInt(s, 10)`: skip leading whitespace, read an
optional sign and then the longest run of decimal digits, ignoring any
trailing garbage; `none` models the `NaN` result when no digit is found. -/
def jsParseInt (s : String) : Option Int :=
  match s.toList.dropWhile isJsSpace with
  | '-' :: cs => (leadingNat cs).map (fun n => -(n : Int))
  | '+' :: cs => (leadingNat cs).map (fun n => (n : Int))
  | cs => (leadingNat cs).map (fun n => (n : Int))

/-- Model of `x || d` on an optional query-parameter string: an absent or
empty value falls back to the default `d`. -/
def jsOr (v : Option String) (d : String) : String :=
  match v with
  | none => d
  | some s => if s = "" then d else s

/-- Model of `Math.max(x, 1)` on a possibly-`NaN` number: `NaN` (here
`none`) propagates, since `Math.max(NaN, 1)` is `NaN`. -/
def jsMax1 : Option Int → Option Int
  | none => none
  | some x => some (max x 1)

/-- Effective page number, embedding
`Math.max(parseInt(req.query.page || "1", 10), 1)`
(`src/routes/phones.js` line 88). -/
def effPage (p : Option String) : Option Int :=
  jsMax1 (jsParseInt (jsOr p "1"))

/-- Effective page size, embedding
`Math.max(parseInt(req.query.limit || "10", 10), 1)`
(`src/routes/phones.js` line 89). -/
def effLimit (l : Option String) : Option Int :=
  jsMax1 (jsParseInt (jsOr l "10"))

/-- True when a regular-expression pattern character is a metacharacter of
JavaScript regex syntax.  The matcher below is a faithful model of the
JavaScript engine only for patterns whose characters are all non-meta, or
are the `.` wildcard. -/
def isRegexMeta (c : Char) : Bool :=
  c ∈ ".*+?^$()[]|\\\x7b\x7d".toList

/-- Single-character step of the case-insensitive matcher: `.` matches any
character, any other pattern character matches up to case. -/
def rmatchChar (p c : Char) : Bool :=
  p = '.' || p.toLower = c.toLower

/-- Model of `new RegExp("^" ++ p ++ "$", "i").test s` for patterns `p` in
the literal-plus-`.` fragment: the whole subject must be consumed. -/
def rmatchFull : List Char → List Char → Bool
  | [], [] => true
  | [], _ :: _ => false
  | _ :: _, [] => false
  | p :: ps, c :: cs => rmatchChar p c && rmatchFull ps cs

/-- Matches the pattern against a leading segment of the subject. -/
def rmatchHead : List Char → List Char → Bool
  | [], _ => true
  | _ :: _, [] => false
  | p :: ps, c :: cs => rmatchChar p c && rmatchHead ps cs

/-- Model of the unanchored `new RegExp(p, "i").test s` for patterns in the
literal-plus-`.` fragment: the pattern may match at any position. -/
def rmatchSearch (p : List Char) : List Char → Bool
  | [] => rmatchHead p []
  | c :: cs => rmatchHead p (c :: cs) || rmatchSearch p cs

/-- Embeds the Mongo filter built in the collection GET handler
(`src/routes/phones.js` lines 53–61): an anchored case-insensitive brand
match (when `bv` is nonempty) conjoined with an unanchored case-insensitive
search over title, brand and description (when `qv` is nonempty). -/
def phoneMatches (qv bv : String) (ph : Phone) : Bool :=
  (bv = "" || rmatchFull bv.toList ph.brand.toList) &&
  (qv = "" ||
    (rmatchSearch qv.toList ph.title.toList ||
     rmatchSearch qv.toList ph.brand.toList ||
     rmatchSearch qv.toList ph.description.toList))

/-- Query parameters of a collection GET request (each `none` when absent). -/
structure ListQuery where
  q : Option String
  brand : Option String
  page : Option String
  limit : Option String
deriving Repr, DecidableEq

/-- Projection returned by `.select("title brand")` plus the mapping to
`{id, title, brand}` in the handler. -/
structure ItemView where
  id : Nat
  title : String
  brand : String
deriving Repr, DecidableEq

/-- Pagination object of the collection response
(`src/routes/phones.js` lines 137–143). -/
structure Pagination where
  page : Int
  limit : Int
  pages : Nat
  total : Nat
  count : Nat
deriving Repr, DecidableEq

/-- Collection GET response.  `invalidQuery` stands for the branch where
`page` or `limit` evaluated to `NaN`, so the handler issues
`skip(NaN)/limit(NaN)` to the store — a failing query outside this model,
carrying no items. -/
inductive ListResponse where
  | ok (items : List ItemView) (pagination : Option Pagination)
  | invalidQuery
deriving Repr, DecidableEq

/-- Items carried by a collection response (none on the failing branch). -/
def ListResponse.items : ListResponse → List ItemView
  | .ok its _ => its
  | .invalidQuery => []

/-- Pagination object carried by a collection response. -/
def ListResponse.pagination : ListResponse → Option Pagination
  | .ok _ p => p
  | .invalidQuery => none

/-- Projection of a record into the collection list shape. -/
def projItem (ph : Phone) : ItemView :=
  ⟨ph.id, ph.title, ph.brand⟩

/-- The handler's `hasLimit` test (`src/routes/phones.js` line 63):
`typeof req.query.limit !== "undefined" && req.query.limit !== ""`. -/
def hasLimitParam (l : Option String) : Bool :=
  match l with
  | none => false
  | some s => s ≠ ""

/-- Records of the store matching the (trimmed) `q` and `brand` filters of
a request — the result of `Phone.find(filter)`. -/
def matchingRecords (store : List Phone) (query : ListQuery) : List Phone :=
  store.filter (phoneMatches (jsTrim (jsOr query.q "")) (jsTrim (jsOr query.brand "")))

/-- Embeds the collection GET handler (`src/routes/phones.js` lines
49–151).  Without a `limit` parameter every matching record is returned and
no pagination object is built.  With a `limit`, one page is fetched via
`skip((page-1)*limit).limit(limit)` and the pagination object
`{page, limit, pages, total, count}` is attached, where `pages` is
`Math.max(Math.ceil(total / limit), 1)` — written here in the equivalent
natural-number form `(total + (limit-1)) / limit` since the effective limit
is at least 1.  The `NaN` branch is represented by `invalidQuery`. -/
def getPhones (store : List Phone) (query : ListQuery) : ListResponse :=
  let matching := matchingRecords store query
  if hasLimitParam query.limit then
    match effPage query.page, effLimit query.limit with
    | some page, some lim =>
      let docs := (matching.drop ((page - 1) * lim).toNat).take lim.toNat
      .ok (docs.map projItem)
        (some { page := page, limit := lim,
                pages := max ((matching.length + (lim.toNat - 1)) / lim.toNat) 1,
                total := matching.length, count := docs.length })
    | _, _ => .invalidQuery
  else
    .ok (matching.map projItem) none

/-- Request body of a PATCH, one optional slot per recognized mutable field;
`none` models a key that is absent from the JSON object (`"f" in req.body`
false), `some v` a present key with value `v`. -/
structure PatchBody where
  title : Option JsVal
  brand : Option JsVal
  description : Option JsVal
  imageUrl : Option JsVal
  reviews : Option JsVal
  hasBookmark : Option JsVal
deriving Repr, DecidableEq

/-- The `update` object accumulated by the PATCH handler: each field is
present exactly when the corresponding key was supplied (and valid). -/
structure PhonePatch where
  title : Option String
  brand : Option String
  description : Option String
  imageUrl : Option String
  reviews : Option String
  hasBookmark : Option Bool
deriving Repr, DecidableEq

/-- One string-field check of the PATCH handler: an absent key contributes
nothing; a present key must satisfy `nonEmptyString` and contributes its
trimmed value, otherwise the handler returns the 400 error for that field. -/
def patchStrField (name : String) : Option JsVal → Except String (Option String)
  | none => .ok none
  | some w =>
    if nonEmptyString w then .ok (some (jsTrim (jsStr (some w))))
    else .error (name ++ " must be non-empty string")

/-- The `hasBookmark` check of the PATCH handler: a present key must be a
strict boolean. -/
def patchBoolField : Option JsVal → Except String (Option Bool)
  | none => .ok none
  | some (.boolean b) => .ok (some b)
  | some _ => .error "hasBookmark must be boolean"

/-- Embeds the field-by-field construction of `update` in the PATCH handler
of `src/unnamed/part_001` lines 454–480: each supplied field is validated
independently and the first failing field (in source order: title, brand,
description, imageUrl, reviews, hasBookmark) aborts with its error
message. -/
def buildPatch (b : PatchBody) : Except String PhonePatch :=
  match patchStrField "title" b.title, patchStrField "brand" b.brand,
        patchStrField "description" b.description,
        patchStrField "imageUrl" b.imageUrl, patchStrField "reviews" b.reviews,
        patchBoolField b.hasBookmark with
  | .ok t, .ok br, .ok d, .ok im, .ok rv, .ok hb => .ok ⟨t, br, d, im, rv, hb⟩
  | .error e, _, _, _, _, _ => .error e
  | _, .error e, _, _, _, _ => .error e
  | _, _, .error e, _, _, _ => .error e
  | _, _, _, .error e, _, _ => .error e
  | _, _, _, _, .error e, _ => .error e
  | _, _, _, _, _, .error e => .error e

/-- The `Object.keys(update).length === 0` test: no field was supplied. -/
def PhonePatch.isEmpty (p : PhonePatch) : Bool :=
  p.title.isNone && p.brand.isNone && p.description.isNone &&
  p.imageUrl.isNone && p.reviews.isNone && p.hasBookmark.isNone

/-- Applies a built `update` object (plus the fresh `date`) to a stored
record, as `findByIdAndUpdate` does. -/
def applyPatch (p : PhonePatch) (now : Int) (ph : Phone) : Phone :=
  { ph with
    title := p.title.getD ph.title,
    brand := p.brand.getD ph.brand,
    description := p.description.getD ph.description,
    imageUrl := p.imageUrl.getD ph.imageUrl,
    reviews := match p.reviews with
      | some r => some r
      | none => ph.reviews,
    hasBookmark := p.hasBookmark.getD ph.hasBookmark,
    date := now }

/-- Outcome of a mutation on a single record. -/
inductive MutationResult where
  | badRequest (msg : String)
  | notFound
  | ok (ph : Phone)
deriving Repr, DecidableEq

/-- Replaces the record with identifier `id` in the store. -/
def storeUpdate (store : List Phone) (id : Nat) (ph : Phone) : List Phone :=
  store.map (fun r => if r.id = id then ph else r)

/-- Looks a record up by identifier (`Phone.findById`). -/
def storeFind (store : List Phone) (id : Nat) : Option Phone :=
  store.find? (fun ph => ph.id = id)

/-- Embeds the PATCH `/:id` handler (`src/unnamed/part_001` lines 451–499):
build the `update` object field by field (400 on the first invalid supplied
field), reject with 400 when no recognized field was supplied, otherwise
stamp `date` and apply the update, returning 404 when the identifier does
not resolve.  Returns the HTTP-level outcome together with the new store
state. -/
def patchPhone (store : List Phone) (id : Nat) (b : PatchBody) (now : Int) :
    MutationResult × List Phone :=
  match buildPatch b with
  | .error e => (.badRequest e, store)
  | .ok p =>
    if p.isEmpty then (.badRequest "No valid fields to patch", store)
    else
      match storeFind store id with
      | none => (.notFound, store)
      | some ph =>
        let updated := applyPatch p now ph
        (.ok updated, storeUpdate store id updated)

/-- Request body of a create or full replace. -/
structure CreateBody where
  title : Option JsVal
  brand : Option JsVal
  description : Option JsVal
  imageUrl : Option JsVal
  reviews : Option JsVal
deriving Repr, DecidableEq

/-- Embeds `validateFullBody` (`src/routes/phones.js` lines 12–17):
the first missing or empty required field yields its error message. -/
def validateFullBody (b : CreateBody) : Option String :=
  if ¬ nonEmptyStringO b.title then some "title is required"
  else if ¬ nonEmptyStringO b.brand then some "brand is required"
  else if ¬ nonEmptyStringO b.description then some "description is required"
  else none

/-- Embeds the POST `/` create handler (`src/routes/phones.js` lines
156–175): after full-body validation, the stored record carries the trimmed
required fields, the trimmed `imageUrl` when one was supplied (a generated
placeholder `genImage` otherwise), the trimmed `reviews` when supplied
(absent otherwise), and a fresh identifier and timestamp. -/
def createPhone (store : List Phone) (b : CreateBody) (newId : Nat)
    (genImage : String) (now : Int) : MutationResult × List Phone :=
  match validateFullBody b with
  | some e => (.badRequest e, store)
  | none =>
    let ph : Phone :=
      { id := newId,
        title := jsTrim (jsStr b.title),
        brand := jsTrim (jsStr b.brand),
        description := jsTrim (jsStr b.description),
        imageUrl := if nonEmptyStringO b.imageUrl then jsTrim (jsStr b.imageUrl) else genImage,
        reviews := if nonEmptyStringO b.reviews then some (jsTrim (jsStr b.reviews)) else none,
        hasBookmark := false,
        date := now }
    (.ok ph, store ++ [ph])

/-- Embeds the PUT `/:id` replace handler (`src/routes/phones.js` lines
249–283): full-body validation, then the three required fields are replaced
by their trimmed values, `imageUrl`/`reviews` are replaced only when
supplied non-empty (left untouched otherwise), and `date` is refreshed. -/
def putPhone (store : List Phone) (id : Nat) (b : CreateBody) (now : Int) :
    MutationResult × List Phone :=
  match validateFullBody b with
  | some e => (.badRequest e, store)
  | none =>
    match storeFind store id with
    | none => (.notFound, store)
    | some ph =>
      let updated : Phone :=
        { ph with
          title := jsTrim (jsStr b.title),
          brand := jsTrim (jsStr b.brand),
          description := jsTrim (jsStr b.description),
          imageUrl := if nonEmptyStringO b.imageUrl then jsTrim (jsStr b.imageUrl) else ph.imageUrl,
          reviews := if nonEmptyStringO b.reviews then some (jsTrim (jsStr b.reviews)) else ph.reviews,
          date := now }
      (.ok updated, storeUpdate store id updated)

/-- Model of `parseInt(v, 10)` applied to an arbitrary body value, which
JavaScript first coerces to a string: an absent value stringifies to
`"undefined"`, a boolean to `"true"/"false"` and `null` to `"null"`, all of
which parse to `NaN`; an integer number stringifies to its decimal digits
and parses back to itself. -/
def jsParseIntVal : Option JsVal → Option Int
  | some (.str s) => jsParseInt s
  | some (.num n) => some n
  | _ => none

/-- Embeds the POST `/seed` handler (`src/routes/phones.js` lines 180–197):
clear the whole collection (`deleteMany({})`), compute
`safeAmount = Number.isFinite(parseInt(amount, 10)) ? Math.max(parsed, 5) : 10`,
then insert that many generated records.  Record generation by faker is an
external collaborator, abstracted as `gen : Nat → Phone`. -/
def seedPhones (_store : List Phone) (amount : Option JsVal) (gen : Nat → Phone) :
    List Phone :=
  let safeAmount : Nat :=
    match jsParseIntVal amount with
    | some n => (max n 5).toNat
    | none => 10
  (List.range safeAmount).map gen

/-- Truncation of a millisecond timestamp to whole seconds, as performed by
`Date.prototype.toUTCString` when the `Last-Modified` header is rendered. -/
def truncSec (t : Int) : Int :=
  t / 1000 * 1000

/-- Outcome of a detail GET. -/
inductive DetailResult where
  | notFound
  | notModified
  | ok (ph : Phone) (lastModifiedHeader : Int)
deriving Repr, DecidableEq

/-- Embeds the GET `/:id` handler (`src/routes/phones.js` lines 213–244).
`ims` is the parsed `If-Modified-Since` header in milliseconds (`none` when
the header is absent or unparseable); an HTTP date always parses to a whole
second.  The stored `date` is compared at full millisecond precision
(`last <= imsDate`); on a 200 the `Last-Modified` header carries the stored
timestamp truncated to one-second precision by `toUTCString`. -/
def getPhoneDetail (store : List Phone) (id : Nat) (ims : Option Int) : DetailResult :=
  match storeFind store id with
  | none => .notFound
  | some ph =>
    match ims with
    | some t => if ph.date ≤ t then .notModified else .ok ph (truncSec ph.date)
    | none => .ok ph (truncSec ph.date)

/-- Incoming request as seen by the method-override middleware. -/
structure Req where
  method : String
  overrideHeader : Option String
  methodQuery : Option String
deriving Repr, DecidableEq

/-- Embeds `src/middleware/methodOverride.js`: only a POST can be
overridden; the header value (or, when that is absent or empty, the
`_method` query value) is upper-cased and, when it is one of
`PATCH`/`PUT`/`DELETE`, becomes the effective method. -/
def methodOverride (r : Req) : String :=
  if r.method ≠ "POST" then r.method
  else
    let hdr := jsToUpper (jsOr r.overrideHeader "")
    let qry := jsToUpper (jsOr r.methodQuery "")
    let ov := if hdr ≠ "" then hdr else qry
    if ov = "PATCH" ∨ ov = "PUT" ∨ ov = "DELETE" then ov else r.method

/-! Spec-side definitions.  The definitions below are written from the
wording of the specification claims, independently of the handler code, so
that the theorems compare the two. -/

/-- Spec-side: a string contains no JavaScript regex metacharacter, so the
filter patterns built from it stay inside the literal fragment. -/
abbrev regexSafe (s : String) : Prop :=
  ∀ c ∈ s.toList, isRegexMeta c = false

/-- Spec-side: lower-cased character content of a string, the basis of the
case-insensitive comparisons in the claims. -/
def lowerChars (s : String) : List Char :=
  s.toList.map Char.toLower

/-- Spec-side: `pat` occurs inside `hay` as a case-insensitive contiguous
substring. -/
def ContainsCI (hay pat : String) : Prop :=
  ∃ pre post, lowerChars hay = pre ++ lowerChars pat ++ post

/-- Spec-side: some of the three searched fields of a record contains `pat`
as a case-insensitive substring. -/
def RecordContainsCI (ph : Phone) (pat : String) : Prop :=
  ContainsCI ph.title pat ∨ ContainsCI ph.brand pat ∨ ContainsCI ph.description pat

/-- Spec-side: the override verbs the claim allows. -/
abbrev overrideVerb (s : String) : Prop :=
  s = "PATCH" ∨ s = "PUT" ∨ s = "DELETE"

/-- Spec-side: the declared override value exactly as the claim words it —
the header's value, or the `_method` query value only when the header is
absent. -/
def declaredOverrideClaim (r : Req) : String :=
  match r.overrideHeader with
  | some h => jsToUpper h
  | none => jsToUpper (jsOr r.methodQuery "")

/-- Spec-side: the declared override value under the amended claim — the
`_method` query value is consulted when the header is absent *or empty*. -/
def declaredOverride (r : Req) : String :=
  match r.overrideHeader with
  | some h => if h ≠ "" then jsToUpper h else jsToUpper (jsOr r.methodQuery "")
  | none => jsToUpper (jsOr r.methodQuery "")

/-- Spec-side: the effective method prescribed for a request whose declared
override value is `d`: rewrite only a POST whose declared value is an
allowed verb. -/
def specEffectiveMethod (d : String) (m : String) : String :=
  if m = "POST" ∧ overrideVerb d then d else m

/-- Spec-side: a supplied string field of a PATCH body is well-typed —
absent, or a string that is non-empty after trimming. -/
def strFieldOk : Option JsVal → Prop
  | none => True
  | some (.str s) => jsTrim s ≠ ""
  | some _ => False

/-- Spec-side: the `hasBookmark` field of a PATCH body is well-typed —
absent or a strict boolean. -/
def boolFieldOk : Option JsVal → Prop
  | none => True
  | some (.boolean _) => True
  | some _ => False

/-- Spec-side: the update content a supplied string field should
contribute — its trimmed value — or nothing when the field is absent. -/
def strPatchVal : Option JsVal → Option String
  | some (.str s) => some (jsTrim s)
  | _ => none

/-- Spec-side: the update content of the `hasBookmark` field. -/
def boolPatchVal : Option JsVal → Option Bool
  | some (.boolean x) => some x
  | _ => none

/-- Spec-side: at least one recognized mutable field is supplied. -/
def PatchBody.suppliesField (b : PatchBody) : Prop :=
  b.title.isSome = true ∨ b.brand.isSome = true ∨ b.description.isSome = true ∨
  b.imageUrl.isSome = true ∨ b.reviews.isSome = true ∨ b.hasBookmark.isSome = true

/-- Spec-side: a PATCH body the claim says must be accepted — every
supplied field passes its own type rule and at least one field is
supplied. -/
def PatchBodyValid (b : PatchBody) : Prop :=
  strFieldOk b.title ∧ strFieldOk b.brand ∧ strFieldOk b.description ∧
  strFieldOk b.imageUrl ∧ strFieldOk b.reviews ∧ boolFieldOk b.hasBookmark ∧
  b.suppliesField

/-! Theorems.  First, helper lemmas relating the embedded regex matcher to
plain case-insensitive string comparison, shared by several claims. -/

/-- A metacharacter-free pattern character is not the `.` wildcard. -/
theorem safe_ne_dot {a : Char} (ha : isRegexMeta a = false) : a ≠ '.' := by
  intro h
  rw [h] at ha
  exact absurd ha (by decide)

/-- For a metacharacter-free pattern, the anchored case-insensitive match
holds exactly when the lower-cased character data of pattern and subject
agree. -/
theorem rmatchFull_safe :
    ∀ p s : List Char, (∀ c ∈ p, isRegexMeta c = false) →
      (rmatchFull p s = true ↔ s.map Char.toLower = p.map Char.toLower) := by
  intro p
  induction p with
  | nil =>
    intro s _
    cases s with
    | nil => simp [rmatchFull]
    | cons c cs => simp [rmatchFull]
  | cons a ps ih =>
    intro s hp
    have hadot : a ≠ '.' := safe_ne_dot (hp a (List.mem_cons_self a ps))
    have hps : ∀ c ∈ ps, isRegexMeta c = false :=
      fun c hc => hp c (List.mem_cons_of_mem a hc)
    cases s with
    | nil => simp [rmatchFull]
    | cons c cs =>
      simp only [rmatchFull, rmatchChar, Bool.and_eq_true, Bool.or_eq_true,
        decide_eq_true_eq, List.map_cons, List.cons.injEq]
      rw [ih cs hps]
      constructor
      · rintro ⟨h1 | h1, h2⟩
        · exact absurd h1 hadot
        · exact ⟨h1.symm, h2⟩
      · rintro ⟨h1, h2⟩
        exact ⟨Or.inr h1.symm, h2⟩

/-- For a metacharacter-free pattern, matching a leading segment of the
subject is the same as the lower-cased pattern being a prefix of the
lower-cased subject. -/
theorem rmatchHead_safe :
    ∀ p s : List Char, (∀ c ∈ p, isRegexMeta c = false) →
      (rmatchHead p s = true ↔
        ∃ post, s.map Char.toLower = p.map Char.toLower ++ post) := by
  intro p
  induction p with
  | nil =>
    intro s _
    simp [rmatchHead]
  | cons a ps ih =>
    intro s hp
    have hadot : a ≠ '.' := safe_ne_dot (hp a (List.mem_cons_self a ps))
    have hps : ∀ c ∈ ps, isRegexMeta c = false :=
      fun c hc => hp c (List.mem_cons_of_mem a hc)
    cases s with
    | nil => simp [rmatchHead]
    | cons c cs =>
      simp only [rmatchHead, rmatchChar, Bool.and_eq_true, Bool.or_eq_true,
        decide_eq_true_eq, List.map_cons, List.cons_append, List.cons.injEq]
      rw [ih cs hps]
      constructor
      · rintro ⟨h1 | h1, post, h2⟩
        · exact absurd h1 hadot
        · exact ⟨post, h1.symm, h2⟩
      · rintro ⟨post, h1, h2⟩
        exact ⟨Or.inr h1.symm, post, h2⟩

/-- For a metacharacter-free pattern, the unanchored case-insensitive
search succeeds exactly when the lower-cased pattern occurs contiguously
inside the lower-cased subject. -/
theorem rmatchSearch_safe :
    ∀ p s : List Char, (∀ c ∈ p, isRegexMeta c = false) →
      (rmatchSearch p s = true ↔
        ∃ pre post, s.map Char.toLower = pre ++ p.map Char.toLower ++ post) := by
  intro p s hp
  induction s with
  | nil =>
    cases p with
    | nil => simp [rmatchSearch, rmatchHead]
    | cons a ps =>
      simp only [rmatchSearch, rmatchHead, List.map_nil, List.map_cons]
      constructor
      · intro h
        exact absurd h (by decide)
      · rintro ⟨pre, post, h⟩
        rcases List.append_eq_nil.mp h.symm with ⟨h1, h2⟩
        rcases List.append_eq_nil.mp h1 with ⟨_, h3⟩
        exact absurd h3 (by simp)
  | cons c cs ih =>
    simp only [rmatchSearch, Bool.or_eq_true]
    constructor
    · rintro (h | h)
      · rcases (rmatchHead_safe p (c :: cs) hp).mp h with ⟨post, hpost⟩
        exact ⟨[], post, by simpa using hpost⟩
      · rcases ih.mp h with ⟨pre, post, hh⟩
        exact ⟨Char.toLower c :: pre, post, by simp [hh]⟩
    · rintro ⟨pre, post, hh⟩
      cases pre with
      | nil =>
        left
        exact (rmatchHead_safe p (c :: cs) hp).mpr ⟨post, by simpa using hh⟩
      | cons x pre =>
        right
        simp only [List.map_cons, List.cons_append, List.cons.injEq] at hh
        exact ih.mpr ⟨pre, post, hh.2⟩

/-- A case-insensitive substring occurrence forces every character of the
lower-cased pattern to occur in the lower-cased haystack. -/
theorem containsCI_mem {hay pat : String} (h : ContainsCI hay pat) :
    ∀ c ∈ lowerChars pat, c ∈ lowerChars hay := by
  rcases h with ⟨pre, post, hh⟩
  intro c hc
  rw [hh]
  simp only [List.mem_append]
  exact Or.inl (Or.inr hc)

/-- Every item of any collection response is the projection of a record
matching the request's filter. -/
theorem items_from_matching (store : List Phone) (query : ListQuery) :
    ∀ it ∈ (getPhones store query).items,
      ∃ ph ∈ matchingRecords store query, projItem ph = it := by
  intro it hit
  unfold getPhones at hit
  cases h : hasLimitParam query.limit with
  | false =>
    rw [h] at hit
    simp only [Bool.false_eq_true, if_false, ListResponse.items] at hit
    rcases List.mem_map.mp hit with ⟨ph, hmem, heq⟩
    exact ⟨ph, hmem, heq⟩
  | true =>
    rw [h] at hit
    simp only [if_true] at hit
    cases hp : effPage query.page with
    | none =>
      rw [hp] at hit
      cases hl : effLimit query.limit with
      | none => rw [hl] at hit; simp [ListResponse.items] at hit
      | some l => rw [hl] at hit; simp [ListResponse.items] at hit
    | some p =>
      rw [hp] at hit
      cases hl : effLimit query.limit with
      | none => rw [hl] at hit; simp [ListResponse.items] at hit
      | some l =>
        rw [hl] at hit
        simp only [ListResponse.items] at hit
        rcases List.mem_map.mp hit with ⟨ph, hmem, heq⟩
        exact ⟨ph, List.drop_subset _ _ (List.take_subset _ _ hmem), heq⟩

/-- A result of the `Math.max(·, 1)` clamp is at least 1. -/
theorem jsMax1_pos {o : Option Int} {x : Int} (h : jsMax1 o = some x) : 1 ≤ x := by
  cases o with
  | none => simp [jsMax1] at h
  | some v =>
    simp only [jsMax1, Option.some.injEq] at h
    subst h
    exact le_max_right v 1

/-- Arithmetic of the `pages` field: `max(⌈T/L⌉, 1)` (written in natural
division form) is at least 1, covers all `T` records, is minimal when some
record exists, and collapses to 1 when the total is 0. -/
theorem ceilPages_spec (T L : Nat) (hL : 1 ≤ L) :
    1 ≤ max ((T + (L - 1)) / L) 1 ∧
    T ≤ max ((T + (L - 1)) / L) 1 * L ∧
    (max ((T + (L - 1)) / L) 1 = 1 ∨ (max ((T + (L - 1)) / L) 1 - 1) * L < T) ∧
    (T = 0 → max ((T + (L - 1)) / L) 1 = 1) := by
  have hdm := Nat.div_add_mod (T + (L - 1)) L
  have hm : (T + (L - 1)) % L < L := Nat.mod_lt _ (by omega)
  rcases Nat.eq_zero_or_pos ((T + (L - 1)) / L) with hc | hc
  · rw [hc] at hdm ⊢
    simp only [Nat.mul_zero, Nat.zero_add] at hdm
    have hT : T = 0 := by omega
    subst hT
    simp
  · have hmax : max ((T + (L - 1)) / L) 1 = (T + (L - 1)) / L := max_eq_left hc
    rw [hmax]
    have hP : L ≤ L * ((T + (L - 1)) / L) := Nat.le_mul_of_pos_right L hc
    refine ⟨hc, ?_, Or.inr ?_, ?_⟩
    · rw [Nat.mul_comm]
      omega
    · rw [Nat.sub_mul, Nat.one_mul, Nat.mul_comm]
      omega
    · intro hT
      subst hT
      have h0 : (0 + (L - 1)) / L = 0 := Nat.div_eq_of_lt (by omega)
      omega

/-- C3 counterexample: the brand filter interpolates the raw parameter
into the regex `^X$` without escaping, so metacharacters act as regex
syntax.  With `brand=.` the pattern `^.$` matches any single-character
brand: the record with brand `Z` is returned, yet `Z` does not equal `.`
case-insensitively. -/
theorem brandFilter_metachar_cex :
    (getPhones [⟨1, "Alpha", "Z", "d", "u", none, false, 0⟩]
        ⟨none, some ".", none, none⟩).items = [⟨1, "Alpha", "Z"⟩] ∧
    lowerChars "Z" ≠ lowerChars "." := ⟨by decide, by decide⟩

/-- C3 (amended): for brand parameters free of regex metacharacters the
claim holds — every returned item is the projection of a stored record
whose brand equals the (trimmed) parameter case-insensitively, anchored and
not substring, and every stored record with such a brand is returned when
no other filter or pagination is requested.  A parameter containing
metacharacters is instead interpreted as regex syntax. -/
theorem brandFilter_spec (store : List Phone) (X : String) (query : ListQuery)
    (hq : query.brand = some X) (hsafe : regexSafe (jsTrim X))
    (hne : jsTrim X ≠ "") :
    (∀ it ∈ (getPhones store query).items, ∃ ph ∈ store,
        projItem ph = it ∧ lowerChars ph.brand = lowerChars (jsTrim X)) ∧
    (∀ ph ∈ store, lowerChars ph.brand = lowerChars (jsTrim X) →
        projItem ph ∈ (getPhones store ⟨none, some X, none, none⟩).items) := by
  have hXne : X ≠ "" := by
    intro h
    rw [h] at hne
    exact hne rfl
  have hj : jsOr (some X) "" = X := by simp [jsOr, hXne]
  constructor
  · intro it hit
    rcases items_from_matching store query it hit with ⟨ph, hmem, heq⟩
    unfold matchingRecords at hmem
    rw [hq, hj] at hmem
    obtain ⟨hst, hmatch⟩ := List.mem_filter.mp hmem
    unfold phoneMatches at hmatch
    simp only [Bool.and_eq_true, Bool.or_eq_true, decide_eq_true_eq] at hmatch
    rcases hmatch.1 with hb | hb
    · exact absurd hb hne
    · exact ⟨ph, hst, heq, (rmatchFull_safe _ _ hsafe).mp hb⟩
  · intro ph hst hlow
    have hgp : getPhones store ⟨none, some X, none, none⟩ =
        .ok ((matchingRecords store ⟨none, some X, none, none⟩).map projItem) none := by
      unfold getPhones
      simp [hasLimitParam]
    rw [hgp]
    simp only [ListResponse.items]
    apply List.mem_map.mpr
    refine ⟨ph, ?_, rfl⟩
    unfold matchingRecords
    apply List.mem_filter.mpr
    refine ⟨hst, ?_⟩
    unfold phoneMatches
    simp only [Bool.and_eq_true, Bool.or_eq_true, decide_eq_true_eq]
    constructor
    · right
      rw [hj]
      exact (rmatchFull_safe _ _ hsafe).mpr hlow
    · left
      rfl

/-- C3 witness: `brand=acme` returns the record whose stored brand is
`Acme`. -/
theorem brandFilter_spec_witness :
    projItem ⟨1, "Alpha", "Acme", "d", "u", none, false, 0⟩ ∈
      (getPhones [⟨1, "Alpha", "Acme", "d", "u", none, false, 0⟩]
        ⟨none, some "acme", none, none⟩).items :=
  (brandFilter_spec [⟨1, "Alpha", "Acme", "d", "u", none, false, 0⟩] "acme"
      ⟨none, some "acme", none, none⟩ rfl (by decide) (by decide)).2
    ⟨1, "Alpha", "Acme", "d", "u", none, false, 0⟩ (by decide) (by decide)

/-- C4 counterexample: the search parameter is interpolated unescaped into
an unanchored regex, so `q=.` matches every record with any nonempty
searched field, even though none of its fields contains the character `.`
as a substring. -/
theorem searchFilter_metachar_cex :
    (getPhones [⟨1, "abc", "b", "d", "u", none, false, 0⟩]
        ⟨some ".", none, none, none⟩).items = [⟨1, "abc", "b"⟩] ∧
    ¬ RecordContainsCI ⟨1, "abc", "b", "d", "u", none, false, 0⟩ "." := by
  refine ⟨by decide, ?_⟩
  rintro (h | h | h) <;>
    exact absurd (containsCI_mem h '.' (by decide)) (by decide)

/-- C4 (amended): for search parameters free of regex metacharacters the
claim holds — every returned item is the projection of a stored record one
of whose title, brand or description contains the (trimmed) parameter as a
case-insensitive substring, and every stored record satisfying that
containment is returned by the unpaginated request.  A parameter containing
metacharacters is instead interpreted as regex syntax. -/
theorem searchFilter_spec (store : List Phone) (V : String) (query : ListQuery)
    (hq : query.q = some V) (hsafe : regexSafe (jsTrim V))
    (hne : jsTrim V ≠ "") :
    (∀ it ∈ (getPhones store query).items, ∃ ph ∈ store,
        projItem ph = it ∧ RecordContainsCI ph (jsTrim V)) ∧
    (∀ ph ∈ store, RecordContainsCI ph (jsTrim V) →
        projItem ph ∈ (getPhones store ⟨some V, none, none, none⟩).items) := by
  have hVne : V ≠ "" := by
    intro h
    rw [h] at hne
    exact hne rfl
  have hj : jsOr (some V) "" = V := by simp [jsOr, hVne]
  constructor
  · intro it hit
    rcases items_from_matching store query it hit with ⟨ph, hmem, heq⟩
    unfold matchingRecords at hmem
    rw [hq, hj] at hmem
    obtain ⟨hst, hmatch⟩ := List.mem_filter.mp hmem
    unfold phoneMatches at hmatch
    simp only [Bool.and_eq_true, Bool.or_eq_true, decide_eq_true_eq] at hmatch
    rcases hmatch.2 with hb | hb
    · exact absurd hb hne
    · refine ⟨ph, hst, heq, ?_⟩
      rcases hb with (hb | hb) | hb
      · exact Or.inl ((rmatchSearch_safe _ _ hsafe).mp hb)
      · exact Or.inr (Or.inl ((rmatchSearch_safe _ _ hsafe).mp hb))
      · exact Or.inr (Or.inr ((rmatchSearch_safe _ _ hsafe).mp hb))
  · intro ph hst hcont
    have hgp : getPhones store ⟨some V, none, none, none⟩ =
        .ok ((matchingRecords store ⟨some V, none, none, none⟩).map projItem) none := by
      unfold getPhones
      simp [hasLimitParam]
    rw [hgp]
    simp only [ListResponse.items]
    apply List.mem_map.mpr
    refine ⟨ph, ?_, rfl⟩
    unfold matchingRecords
    apply List.mem_filter.mpr
    refine ⟨hst, ?_⟩
    unfold phoneMatches
    simp only [Bool.and_eq_true, Bool.or_eq_true, decide_eq_true_eq]
    refine ⟨Or.inl rfl, Or.inr ?_⟩
    rw [hj]
    rcases hcont with hc | hc | hc
    · exact Or.inl (Or.inl ((rmatchSearch_safe _ _ hsafe).mpr hc))
    · exact Or.inl (Or.inr ((rmatchSearch_safe _ _ hsafe).mpr hc))
    · exact Or.inr ((rmatchSearch_safe _ _ hsafe).mpr hc)

/-- C4 witness: `q=phone` returns the record titled `My Phone`, whose title
contains the query case-insensitively. -/
theorem searchFilter_spec_witness :
    projItem ⟨1, "My Phone", "b", "d", "u", none, false, 0⟩ ∈
      (getPhones [⟨1, "My Phone", "b", "d", "u", none, false, 0⟩]
        ⟨some "phone", none, none, none⟩).items :=
  (searchFilter_spec [⟨1, "My Phone", "b", "d", "u", none, false, 0⟩] "phone"
      ⟨some "phone", none, none, none⟩ rfl (by decide) (by decide)).2
    ⟨1, "My Phone", "b", "d", "u", none, false, 0⟩ (by decide)
    (Or.inl ⟨"my ".toList, [], by decide⟩)

/-- The `nonEmptyString` check of the source is exactly "the trimmed value
is a nonempty string". -/
theorem nonEmptyString_str {s : String} :
    nonEmptyString (.str s) = true ↔ jsTrim s ≠ "" := by
  simp only [nonEmptyString, decide_eq_true_eq]
  constructor
  · intro h hc
    rw [hc] at h
    exact absurd h (by decide)
  · intro h
    have hne : (jsTrim s).data ≠ [] := fun hc => h (String.ext hc)
    exact List.length_pos.mpr hne

/-- A string-field check of the PATCH handler succeeds on a well-typed
field and contributes its trimmed content. -/
theorem patchStrField_ok (name : String) (v : Option JsVal) (hv : strFieldOk v) :
    patchStrField name v = .ok (strPatchVal v) := by
  cases v with
  | none => rfl
  | some w =>
    cases w with
    | str s =>
      have hs : jsTrim s ≠ "" := hv
      simp only [patchStrField]
      rw [if_pos (nonEmptyString_str.mpr hs)]
      rfl
    | boolean x => exact hv.elim
    | num n => exact hv.elim
    | null => exact hv.elim

/-- A string-field check of the PATCH handler fails on an ill-typed field
with that field's error message. -/
theorem patchStrField_err (name : String) (v : Option JsVal) (hv : ¬ strFieldOk v) :
    patchStrField name v = .error (name ++ " must be non-empty string") := by
  cases v with
  | none => exact absurd trivial hv
  | some w =>
    cases w with
    | str s =>
      simp only [patchStrField]
      exact if_neg (fun hn => hv (nonEmptyString_str.mp hn))
    | boolean x => rfl
    | num n => rfl
    | null => rfl

/-- The `hasBookmark` check succeeds on a well-typed field. -/
theorem patchBoolField_ok (v : Option JsVal) (hv : boolFieldOk v) :
    patchBoolField v = .ok (boolPatchVal v) := by
  cases v with
  | none => rfl
  | some w =>
    cases w with
    | boolean x => rfl
    | str s => exact hv.elim
    | num n => exact hv.elim
    | null => exact hv.elim

/-- The `hasBookmark` check fails on an ill-typed field. -/
theorem patchBoolField_err (v : Option JsVal) (hv : ¬ boolFieldOk v) :
    patchBoolField v = .error "hasBookmark must be boolean" := by
  cases v with
  | none => exact absurd trivial hv
  | some w =>
    cases w with
    | boolean x => exact absurd trivial hv
    | str s => rfl
    | num n => rfl
    | null => rfl

/-- With every supplied field well-typed, the PATCH handler builds exactly
the update object of the trimmed supplied contents. -/
theorem buildPatch_ok {b : PatchBody} (h1 : strFieldOk b.title)
    (h2 : strFieldOk b.brand) (h3 : strFieldOk b.description)
    (h4 : strFieldOk b.imageUrl) (h5 : strFieldOk b.reviews)
    (h6 : boolFieldOk b.hasBookmark) :
    buildPatch b = .ok ⟨strPatchVal b.title, strPatchVal b.brand,
      strPatchVal b.description, strPatchVal b.imageUrl, strPatchVal b.reviews,
      boolPatchVal b.hasBookmark⟩ := by
  unfold buildPatch
  rw [patchStrField_ok "title" b.title h1, patchStrField_ok "brand" b.brand h2,
    patchStrField_ok "description" b.description h3,
    patchStrField_ok "imageUrl" b.imageUrl h4,
    patchStrField_ok "reviews" b.reviews h5, patchBoolField_ok b.hasBookmark h6]

/-- An ill-typed `title` aborts the PATCH build with the title error. -/
theorem buildPatch_err1 {b : PatchBody} (h : ¬ strFieldOk b.title) :
    buildPatch b = .error "title must be non-empty string" := by
  unfold buildPatch
  rw [patchStrField_err "title" b.title h]
  cases patchStrField "brand" b.brand <;>
    cases patchStrField "description" b.description <;>
      cases patchStrField "imageUrl" b.imageUrl <;>
        cases patchStrField "reviews" b.reviews <;>
          cases patchBoolField b.hasBookmark <;> rfl

/-- An ill-typed `brand` (title fine) aborts with the brand error. -/
theorem buildPatch_err2 {b : PatchBody} (h1 : strFieldOk b.title)
    (h : ¬ strFieldOk b.brand) :
    buildPatch b = .error "brand must be non-empty string" := by
  unfold buildPatch
  rw [patchStrField_ok "title" b.title h1, patchStrField_err "brand" b.brand h]
  cases patchStrField "description" b.description <;>
    cases patchStrField "imageUrl" b.imageUrl <;>
      cases patchStrField "reviews" b.reviews <;>
        cases patchBoolField b.hasBookmark <;> rfl

/-- An ill-typed `description` (earlier fields fine) aborts with its
error. -/
theorem buildPatch_err3 {b : PatchBody} (h1 : strFieldOk b.title)
    (h2 : strFieldOk b.brand) (h : ¬ strFieldOk b.description) :
    buildPatch b = .error "description must be non-empty string" := by
  unfold buildPatch
  rw [patchStrField_ok "title" b.title h1, patchStrField_ok "brand" b.brand h2,
    patchStrField_err "description" b.description h]
  cases patchStrField "imageUrl" b.imageUrl <;>
    cases patchStrField "reviews" b.reviews <;>
      cases patchBoolField b.hasBookmark <;> rfl

/-- An ill-typed `imageUrl` (earlier fields fine) aborts with its error. -/
theorem buildPatch_err4 {b : PatchBody} (h1 : strFieldOk b.title)
    (h2 : strFieldOk b.brand) (h3 : strFieldOk b.description)
    (h : ¬ strFieldOk b.imageUrl) :
    buildPatch b = .error "imageUrl must be non-empty string" := by
  unfold buildPatch
  rw [patchStrField_ok "title" b.title h1, patchStrField_ok "brand" b.brand h2,
    patchStrField_ok "description" b.description h3,
    patchStrField_err "imageUrl" b.imageUrl h]
  cases patchStrField "reviews" b.reviews <;>
    cases patchBoolField b.hasBookmark <;> rfl

/-- An ill-typed `reviews` (earlier fields fine) aborts with its error. -/
theorem buildPatch_err5 {b : PatchBody} (h1 : strFieldOk b.title)
    (h2 : strFieldOk b.brand) (h3 : strFieldOk b.description)
    (h4 : strFieldOk b.imageUrl) (h : ¬ strFieldOk b.reviews) :
    buildPatch b = .error "reviews must be non-empty string" := by
  unfold buildPatch
  rw [patchStrField_ok "title" b.title h1, patchStrField_ok "brand" b.brand h2,
    patchStrField_ok "description" b.description h3,
    patchStrField_ok "imageUrl" b.imageUrl h4,
    patchStrField_err "reviews" b.reviews h]
  cases patchBoolField b.hasBookmark <;> rfl

/-- An ill-typed `hasBookmark` (earlier fields fine) aborts with its
error. -/
theorem buildPatch_err6 {b : PatchBody} (h1 : strFieldOk b.title)
    (h2 : strFieldOk b.brand) (h3 : strFieldOk b.description)
    (h4 : strFieldOk b.imageUrl) (h5 : strFieldOk b.reviews)
    (h : ¬ boolFieldOk b.hasBookmark) :
    buildPatch b = .error "hasBookmark must be boolean" := by
  unfold buildPatch
  rw [patchStrField_ok "title" b.title h1, patchStrField_ok "brand" b.brand h2,
    patchStrField_ok "description" b.description h3,
    patchStrField_ok "imageUrl" b.imageUrl h4,
    patchStrField_ok "reviews" b.reviews h5, patchBoolField_err b.hasBookmark h]

/-- A supplied well-typed string field contributes a present update slot. -/
theorem strPatchVal_some {v : Option JsVal} (hok : strFieldOk v)
    (hs : v.isSome = true) : ∃ w, strPatchVal v = some w := by
  cases v with
  | none => simp at hs
  | some w =>
    cases w with
    | str s => exact ⟨jsTrim s, rfl⟩
    | boolean x => exact hok.elim
    | num n => exact hok.elim
    | null => exact hok.elim

/-- A supplied well-typed `hasBookmark` contributes a present update slot. -/
theorem boolPatchVal_some {v : Option JsVal} (hok : boolFieldOk v)
    (hs : v.isSome = true) : ∃ w, boolPatchVal v = some w := by
  cases v with
  | none => simp at hs
  | some w =>
    cases w with
    | boolean x => exact ⟨x, rfl⟩
    | str s => exact hok.elim
    | num n => exact hok.elim
    | null => exact hok.elim

/-- Inversion of a successful PATCH build: each field check succeeded on
its slot of the update object. -/
theorem buildPatch_inv {b : PatchBody} {p : PhonePatch}
    (hb : buildPatch b = .ok p) :
    patchStrField "title" b.title = .ok p.title ∧
    patchStrField "brand" b.brand = .ok p.brand ∧
    patchStrField "description" b.description = .ok p.description ∧
    patchStrField "imageUrl" b.imageUrl = .ok p.imageUrl ∧
    patchStrField "reviews" b.reviews = .ok p.reviews ∧
    patchBoolField b.hasBookmark = .ok p.hasBookmark := by
  unfold buildPatch at hb
  cases c1 : patchStrField "title" b.title <;> rw [c1] at hb
  case error e => simp at hb
  case ok t =>
  cases c2 : patchStrField "brand" b.brand <;> rw [c2] at hb
  case error e => simp at hb
  case ok br =>
  cases c3 : patchStrField "description" b.description <;> rw [c3] at hb
  case error e => simp at hb
  case ok d =>
  cases c4 : patchStrField "imageUrl" b.imageUrl <;> rw [c4] at hb
  case error e => simp at hb
  case ok im =>
  cases c5 : patchStrField "reviews" b.reviews <;> rw [c5] at hb
  case error e => simp at hb
  case ok rv =>
  cases c6 : patchBoolField b.hasBookmark <;> rw [c6] at hb
  case error e => simp at hb
  case ok hbk =>
  simp only [Except.ok.injEq] at hb
  subst hb
  exact ⟨rfl, rfl, rfl, rfl, rfl, rfl⟩

/-- A successful string-field check on a supplied field yields the trimmed,
necessarily non-empty content. -/
theorem patchStrField_ok_str {name : String} {v : Option JsVal}
    {o : Option String} (h : patchStrField name v = .ok o) :
    ∀ s, v = some (.str s) → o = some (jsTrim s) ∧ jsTrim s ≠ "" := by
  intro s hv
  subst hv
  simp only [patchStrField] at h
  by_cases hn : nonEmptyString (.str s) = true
  · rw [if_pos hn] at h
    simp only [jsStr, Except.ok.injEq] at h
    exact ⟨h.symm, nonEmptyString_str.mp hn⟩
  · rw [if_neg hn] at h
    simp at h

/-- A successful `hasBookmark` check on a supplied field yields its value. -/
theorem patchBoolField_ok_val {v : Option JsVal} {o : Option Bool}
    (h : patchBoolField v = .ok o) :
    ∀ x, v = some (.boolean x) → o = some x := by
  intro x hv
  subst hv
  simp only [patchBoolField, Except.ok.injEq] at h
  exact h.symm

/-- A body field passing the non-empty check has a non-empty trimmed
value. -/
theorem nonEmptyO_trim_ne {v : Option JsVal} (h : nonEmptyStringO v = true) :
    jsTrim (jsStr v) ≠ "" := by
  cases v with
  | none => simp [nonEmptyStringO] at h
  | some w =>
    cases w with
    | str s => exact nonEmptyString_str.mp h
    | boolean x => simp [nonEmptyStringO, nonEmptyString] at h
    | num n => simp [nonEmptyStringO, nonEmptyString] at h
    | null => simp [nonEmptyStringO, nonEmptyString] at h

/-- Passing full-body validation means the three required fields are
present, non-empty strings. -/
theorem validateFullBody_none {b : CreateBody} (h : validateFullBody b = none) :
    nonEmptyStringO b.title = true ∧ nonEmptyStringO b.brand = true ∧
    nonEmptyStringO b.description = true := by
  unfold validateFullBody at h
  split_ifs at h with c1 c2 c3
  exact ⟨c1, c2, c3⟩

/-- C5: on an existing record, a PATCH accepts any subset of the six
mutable fields: when every supplied field passes its own type rule (strings
non-empty after trimming, `hasBookmark` a strict boolean) and at least one
recognized field is supplied, the update succeeds and applies every
supplied field (trimmed) while leaving unsupplied fields unchanged; in
every other case — zero recognized fields supplied, or any supplied field
failing its type check — the request is rejected with a validation error
and the store is unchanged, so no invalid field is silently dropped. -/
theorem patch_subset_spec (store : List Phone) (id : Nat) (b : PatchBody)
    (now : Int) (ph : Phone) (hph : storeFind store id = some ph) :
    (PatchBodyValid b →
      ∃ u, patchPhone store id b now = (.ok u, storeUpdate store id u) ∧
        (∀ s, b.title = some (.str s) → u.title = jsTrim s) ∧
        (b.title = none → u.title = ph.title) ∧
        (∀ s, b.brand = some (.str s) → u.brand = jsTrim s) ∧
        (b.brand = none → u.brand = ph.brand) ∧
        (∀ s, b.description = some (.str s) → u.description = jsTrim s) ∧
        (b.description = none → u.description = ph.description) ∧
        (∀ s, b.imageUrl = some (.str s) → u.imageUrl = jsTrim s) ∧
        (b.imageUrl = none → u.imageUrl = ph.imageUrl) ∧
        (∀ s, b.reviews = some (.str s) → u.reviews = some (jsTrim s)) ∧
        (b.reviews = none → u.reviews = ph.reviews) ∧
        (∀ x, b.hasBookmark = some (.boolean x) → u.hasBookmark = x) ∧
        (b.hasBookmark = none → u.hasBookmark = ph.hasBookmark) ∧
        u.date = now) ∧
    (¬ PatchBodyValid b →
      ∃ msg, patchPhone store id b now = (.badRequest msg, store)) := by
  constructor
  · rintro ⟨h1, h2, h3, h4, h5, h6, hsupp⟩
    have hbp := buildPatch_ok h1 h2 h3 h4 h5 h6
    have hemp : (PhonePatch.mk (strPatchVal b.title) (strPatchVal b.brand)
        (strPatchVal b.description) (strPatchVal b.imageUrl)
        (strPatchVal b.reviews) (boolPatchVal b.hasBookmark)).isEmpty = false := by
      rcases hsupp with hs | hs | hs | hs | hs | hs
      · obtain ⟨w, hw⟩ := strPatchVal_some h1 hs
        simp [PhonePatch.isEmpty, hw]
      · obtain ⟨w, hw⟩ := strPatchVal_some h2 hs
        simp [PhonePatch.isEmpty, hw]
      · obtain ⟨w, hw⟩ := strPatchVal_some h3 hs
        simp [PhonePatch.isEmpty, hw]
      · obtain ⟨w, hw⟩ := strPatchVal_some h4 hs
        simp [PhonePatch.isEmpty, hw]
      · obtain ⟨w, hw⟩ := strPatchVal_some h5 hs
        simp [PhonePatch.isEmpty, hw]
      · obtain ⟨w, hw⟩ := boolPatchVal_some h6 hs
        simp [PhonePatch.isEmpty, hw]
    refine ⟨applyPatch ⟨strPatchVal b.title, strPatchVal b.brand,
        strPatchVal b.description, strPatchVal b.imageUrl, strPatchVal b.reviews,
        boolPatchVal b.hasBookmark⟩ now ph,
      ?_, ?_, ?_, ?_, ?_, ?_, ?_, ?_, ?_, ?_, ?_, ?_, ?_, ?_⟩
    · simp only [patchPhone, hbp, hemp, hph]
      rfl
    · intro s hs
      simp [applyPatch, hs, strPatchVal]
    · intro hs
      simp [applyPatch, hs, strPatchVal]
    · intro s hs
      simp [applyPatch, hs, strPatchVal]
    · intro hs
      simp [applyPatch, hs, strPatchVal]
    · intro s hs
      simp [applyPatch, hs, strPatchVal]
    · intro hs
      simp [applyPatch, hs, strPatchVal]
    · intro s hs
      simp [applyPatch, hs, strPatchVal]
    · intro hs
      simp [applyPatch, hs, strPatchVal]
    · intro s hs
      simp [applyPatch, hs, strPatchVal]
    · intro hs
      simp [applyPatch, hs, strPatchVal]
    · intro x hs
      simp [applyPatch, hs, boolPatchVal]
    · intro hs
      simp [applyPatch, hs, boolPatchVal]
    · simp [applyPatch]
  · intro hnv
    by_cases h1 : strFieldOk b.title
    · by_cases h2 : strFieldOk b.brand
      · by_cases h3 : strFieldOk b.description
        · by_cases h4 : strFieldOk b.imageUrl
          · by_cases h5 : strFieldOk b.reviews
            · by_cases h6 : boolFieldOk b.hasBookmark
              · by_cases hsupp : b.suppliesField
                · exact absurd ⟨h1, h2, h3, h4, h5, h6, hsupp⟩ hnv
                · have ht : b.title = none := by
                    cases hx : b.title with
                    | none => rfl
                    | some w => exact absurd (Or.inl (by simp [hx])) hsupp
                  have hbr : b.brand = none := by
                    cases hx : b.brand with
                    | none => rfl
                    | some w => exact absurd (Or.inr (Or.inl (by simp [hx]))) hsupp
                  have hd : b.description = none := by
                    cases hx : b.description with
                    | none => rfl
                    | some w =>
                      exact absurd (Or.inr (Or.inr (Or.inl (by simp [hx])))) hsupp
                  have him : b.imageUrl = none := by
                    cases hx : b.imageUrl with
                    | none => rfl
                    | some w =>
                      exact absurd (Or.inr (Or.inr (Or.inr (Or.inl (by simp [hx]))))) hsupp
                  have hrv : b.reviews = none := by
                    cases hx : b.reviews with
                    | none => rfl
                    | some w =>
                      exact absurd
                        (Or.inr (Or.inr (Or.inr (Or.inr (Or.inl (by simp [hx])))))) hsupp
                  have hhb : b.hasBookmark = none := by
                    cases hx : b.hasBookmark with
                    | none => rfl
                    | some w =>
                      exact absurd
                        (Or.inr (Or.inr (Or.inr (Or.inr (Or.inr (by simp [hx])))))) hsupp
                  have hbp := buildPatch_ok h1 h2 h3 h4 h5 h6
                  simp only [ht, hbr, hd, him, hrv, hhb, strPatchVal, boolPatchVal] at hbp
                  refine ⟨"No valid fields to patch", ?_⟩
                  simp [patchPhone, hbp, PhonePatch.isEmpty]
              · exact ⟨"hasBookmark must be boolean",
                  by simp [patchPhone, buildPatch_err6 h1 h2 h3 h4 h5 h6]⟩
            · exact ⟨"reviews must be non-empty string",
                by simp [patchPhone, buildPatch_err5 h1 h2 h3 h4 h5]⟩
          · exact ⟨"imageUrl must be non-empty string",
              by simp [patchPhone, buildPatch_err4 h1 h2 h3 h4]⟩
        · exact ⟨"description must be non-empty string",
            by simp [patchPhone, buildPatch_err3 h1 h2 h3]⟩
      · exact ⟨"brand must be non-empty string",
          by simp [patchPhone, buildPatch_err2 h1 h2]⟩
    · exact ⟨"title must be non-empty string",
        by simp [patchPhone, buildPatch_err1 h1]⟩

/-- C5 witness: patching title and bookmark of a stored record succeeds,
stores the trimmed title and the boolean, and keeps the other fields. -/
theorem patch_subset_spec_witness :
    ∃ u, patchPhone [⟨1, "Old", "B", "D", "U", none, false, 0⟩] 1
        ⟨some (.str " New "), none, none, none, none, some (.boolean true)⟩ 99 =
        (.ok u, storeUpdate [⟨1, "Old", "B", "D", "U", none, false, 0⟩] 1 u) ∧
      (∀ s, (some (JsVal.str " New ") : Option JsVal) = some (.str s) →
        u.title = jsTrim s) ∧
      ((some (JsVal.str " New ") : Option JsVal) = none →
        u.title = (Phone.mk 1 "Old" "B" "D" "U" none false 0).title) ∧
      (∀ s, (none : Option JsVal) = some (.str s) → u.brand = jsTrim s) ∧
      ((none : Option JsVal) = none →
        u.brand = (Phone.mk 1 "Old" "B" "D" "U" none false 0).brand) ∧
      (∀ s, (none : Option JsVal) = some (.str s) → u.description = jsTrim s) ∧
      ((none : Option JsVal) = none →
        u.description = (Phone.mk 1 "Old" "B" "D" "U" none false 0).description) ∧
      (∀ s, (none : Option JsVal) = some (.str s) → u.imageUrl = jsTrim s) ∧
      ((none : Option JsVal) = none →
        u.imageUrl = (Phone.mk 1 "Old" "B" "D" "U" none false 0).imageUrl) ∧
      (∀ s, (none : Option JsVal) = some (.str s) → u.reviews = some (jsTrim s)) ∧
      ((none : Option JsVal) = none →
        u.reviews = (Phone.mk 1 "Old" "B" "D" "U" none false 0).reviews) ∧
      (∀ x, (some (JsVal.boolean true) : Option JsVal) = some (.boolean x) →
        u.hasBookmark = x) ∧
      ((some (JsVal.boolean true) : Option JsVal) = none →
        u.hasBookmark = (Phone.mk 1 "Old" "B" "D" "U" none false 0).hasBookmark) ∧
      u.date = 99 :=
  (patch_subset_spec [⟨1, "Old", "B", "D", "U", none, false, 0⟩] 1
      ⟨some (.str " New "), none, none, none, none, some (.boolean true)⟩ 99
      ⟨1, "Old", "B", "D", "U", none, false, 0⟩ rfl).1
    ⟨show jsTrim " New " ≠ "" by decide, trivial, trivial, trivial, trivial, trivial,
      Or.inl rfl⟩

/-- C10: every successful create, full replace, or partial update stores,
for each string field taken from the request body, exactly the trimmed
submitted value — so readable records carry no leading or trailing
whitespace in fields that came from a body — and, combined with the
non-empty validation, the stored title, brand and description are non-empty
after every such write. -/
theorem writes_trimmed_spec (store : List Phone) (b : CreateBody)
    (pb : PatchBody) (id newId : Nat) (genImage : String) (now : Int) :
    (∀ u store2, createPhone store b newId genImage now = (.ok u, store2) →
      u.title = jsTrim (jsStr b.title) ∧ u.brand = jsTrim (jsStr b.brand) ∧
      u.description = jsTrim (jsStr b.description) ∧
      (nonEmptyStringO b.imageUrl = true → u.imageUrl = jsTrim (jsStr b.imageUrl)) ∧
      (nonEmptyStringO b.reviews = true → u.reviews = some (jsTrim (jsStr b.reviews))) ∧
      u.title ≠ "" ∧ u.brand ≠ "" ∧ u.description ≠ "") ∧
    (∀ u store2, putPhone store id b now = (.ok u, store2) →
      u.title = jsTrim (jsStr b.title) ∧ u.brand = jsTrim (jsStr b.brand) ∧
      u.description = jsTrim (jsStr b.description) ∧
      (nonEmptyStringO b.imageUrl = true → u.imageUrl = jsTrim (jsStr b.imageUrl)) ∧
      (nonEmptyStringO b.reviews = true → u.reviews = some (jsTrim (jsStr b.reviews))) ∧
      u.title ≠ "" ∧ u.brand ≠ "" ∧ u.description ≠ "") ∧
    (∀ u store2, patchPhone store id pb now = (.ok u, store2) →
      (∀ s, pb.title = some (.str s) → u.title = jsTrim s ∧ u.title ≠ "") ∧
      (∀ s, pb.brand = some (.str s) → u.brand = jsTrim s ∧ u.brand ≠ "") ∧
      (∀ s, pb.description = some (.str s) →
        u.description = jsTrim s ∧ u.description ≠ "") ∧
      (∀ s, pb.imageUrl = some (.str s) → u.imageUrl = jsTrim s ∧ u.imageUrl ≠ "") ∧
      (∀ s, pb.reviews = some (.str s) → u.reviews = some (jsTrim s))) := by
  refine ⟨?_, ?_, ?_⟩
  · intro u store2 hmain
    cases hv : validateFullBody b with
    | some e => simp [createPhone, hv] at hmain
    | none =>
      obtain ⟨ht, hbr, hd⟩ := validateFullBody_none hv
      simp only [createPhone, hv, Prod.mk.injEq, MutationResult.ok.injEq] at hmain
      obtain ⟨hu, -⟩ := hmain
      subst hu
      refine ⟨rfl, rfl, rfl, ?_, ?_, ?_, ?_, ?_⟩
      · intro him
        simp [him]
      · intro hrv
        simp [hrv]
      · exact nonEmptyO_trim_ne ht
      · exact nonEmptyO_trim_ne hbr
      · exact nonEmptyO_trim_ne hd
  · intro u store2 hmain
    cases hv : validateFullBody b with
    | some e => simp [putPhone, hv] at hmain
    | none =>
      obtain ⟨ht, hbr, hd⟩ := validateFullBody_none hv
      cases hf : storeFind store id with
      | none => simp [putPhone, hv, hf] at hmain
      | some ph =>
        simp only [putPhone, hv, hf, Prod.mk.injEq, MutationResult.ok.injEq] at hmain
        obtain ⟨hu, -⟩ := hmain
        subst hu
        refine ⟨rfl, rfl, rfl, ?_, ?_, ?_, ?_, ?_⟩
        · intro him
          simp [him]
        · intro hrv
          simp [hrv]
        · exact nonEmptyO_trim_ne ht
        · exact nonEmptyO_trim_ne hbr
        · exact nonEmptyO_trim_ne hd
  · intro u store2 hmain
    cases hb : buildPatch pb with
    | error e => simp [patchPhone, hb] at hmain
    | ok p =>
      cases hemp : p.isEmpty with
      | true => simp [patchPhone, hb, hemp] at hmain
      | false =>
        cases hf : storeFind store id with
        | none => simp [patchPhone, hb, hemp, hf] at hmain
        | some ph =>
          simp only [patchPhone, hb, hemp, hf, Bool.false_eq_true, if_false,
            Prod.mk.injEq, MutationResult.ok.injEq] at hmain
          obtain ⟨hu, -⟩ := hmain
          subst hu
          obtain ⟨i1, i2, i3, i4, i5, i6⟩ := buildPatch_inv hb
          refine ⟨?_, ?_, ?_, ?_, ?_⟩
          · intro s hs
            obtain ⟨ho, hne⟩ := patchStrField_ok_str i1 s hs
            exact ⟨by simp [applyPatch, ho], by simpa [applyPatch, ho] using hne⟩
          · intro s hs
            obtain ⟨ho, hne⟩ := patchStrField_ok_str i2 s hs
            exact ⟨by simp [applyPatch, ho], by simpa [applyPatch, ho] using hne⟩
          · intro s hs
            obtain ⟨ho, hne⟩ := patchStrField_ok_str i3 s hs
            exact ⟨by simp [applyPatch, ho], by simpa [applyPatch, ho] using hne⟩
          · intro s hs
            obtain ⟨ho, hne⟩ := patchStrField_ok_str i4 s hs
            exact ⟨by simp [applyPatch, ho], by simpa [applyPatch, ho] using hne⟩
          · intro s hs
            obtain ⟨ho, hne⟩ := patchStrField_ok_str i5 s hs
            simp [applyPatch, ho]

/-- C10 witness: creating from a body with padded title and description
stores the trimmed values, which are non-empty. -/
theorem writes_trimmed_spec_witness :
    (Phone.mk 1 "T" "B" "D" "g" none false 5).title =
        jsTrim (jsStr (some (.str " T "))) ∧
    (Phone.mk 1 "T" "B" "D" "g" none false 5).brand =
        jsTrim (jsStr (some (.str "B"))) ∧
    (Phone.mk 1 "T" "B" "D" "g" none false 5).description =
        jsTrim (jsStr (some (.str " D "))) ∧
    (nonEmptyStringO none = true →
      (Phone.mk 1 "T" "B" "D" "g" none false 5).imageUrl = jsTrim (jsStr none)) ∧
    (nonEmptyStringO none = true →
      (Phone.mk 1 "T" "B" "D" "g" none false 5).reviews =
        some (jsTrim (jsStr none))) ∧
    (Phone.mk 1 "T" "B" "D" "g" none false 5).title ≠ "" ∧
    (Phone.mk 1 "T" "B" "D" "g" none false 5).brand ≠ "" ∧
    (Phone.mk 1 "T" "B" "D" "g" none false 5).description ≠ "" :=
  (writes_trimmed_spec []
      ⟨some (.str " T "), some (.str "B"), some (.str " D "), none, none⟩
      ⟨none, none, none, none, none, none⟩ 0 1 "g" 5).1
    (Phone.mk 1 "T" "B" "D" "g" none false 5)
    [Phone.mk 1 "T" "B" "D" "g" none false 5] rfl

/-- C1: without a `limit` parameter the response carries every matching
record and no pagination object; with a (numeric) `limit` the response
carries exactly the requested page slice together with a pagination object
whose fields are the current page, the page size, the total matching
record count, and a total page count that is at least 1, covers the total
and is minimal when the total is positive — i.e. `ceil(total/limit)`
floored at 1 — so that an empty matching set yields `pages = 1` and an
empty item list. -/
theorem getPhones_pagination_spec (store : List Phone) (query : ListQuery) :
    (hasLimitParam query.limit = false →
      getPhones store query =
        .ok ((matchingRecords store query).map projItem) none) ∧
    (∀ p l, hasLimitParam query.limit = true →
      effPage query.page = some p → effLimit query.limit = some l →
      ∃ docs pag,
        getPhones store query = .ok (docs.map projItem) (some pag) ∧
        docs = ((matchingRecords store query).drop ((p - 1) * l).toNat).take l.toNat ∧
        docs.length ≤ l.toNat ∧
        pag.page = p ∧
        pag.limit = l ∧
        pag.total = (matchingRecords store query).length ∧
        pag.count = docs.length ∧
        1 ≤ pag.pages ∧
        pag.total ≤ pag.pages * l.toNat ∧
        (pag.pages = 1 ∨ (pag.pages - 1) * l.toNat < pag.total) ∧
        (pag.total = 0 → pag.pages = 1 ∧ docs = [])) := by
  constructor
  · intro h
    unfold getPhones
    rw [h]
    rfl
  · intro p l h hp hl
    have hl1 : (1 : Int) ≤ l := jsMax1_pos hl
    have hL1 : 1 ≤ l.toNat := by omega
    refine ⟨((matchingRecords store query).drop ((p - 1) * l).toNat).take l.toNat,
      ⟨p, l, max (((matchingRecords store query).length + (l.toNat - 1)) / l.toNat) 1,
        (matchingRecords store query).length,
        (((matchingRecords store query).drop ((p - 1) * l).toNat).take l.toNat).length⟩,
      ?_, rfl, ?_, rfl, rfl, rfl, rfl, ?_, ?_, ?_, ?_⟩
    · unfold getPhones
      rw [h, hp, hl]
      rfl
    · rw [List.length_take]
      exact min_le_left _ _
    · exact (ceilPages_spec _ _ hL1).1
    · exact (ceilPages_spec _ _ hL1).2.1
    · exact (ceilPages_spec _ _ hL1).2.2.1
    · intro h0
      refine ⟨(ceilPages_spec _ _ hL1).2.2.2 h0, ?_⟩
      have hnil : matchingRecords store query = [] := List.length_eq_zero.mp h0
      rw [hnil]
      simp

/-- C1 witness: three stored records with `limit=2` and no `page` give the
first two projected records and the pagination object, with the minimality
and coverage facts instantiated. -/
theorem getPhones_pagination_spec_witness :
    ∃ docs pag,
      getPhones
          [⟨1, "A", "bA", "dA", "u", none, false, 0⟩,
           ⟨2, "B", "bB", "dB", "u", none, false, 0⟩,
           ⟨3, "C", "bC", "dC", "u", none, false, 0⟩]
          ⟨none, none, none, some "2"⟩ = .ok (docs.map projItem) (some pag) ∧
      docs = ((matchingRecords
          [⟨1, "A", "bA", "dA", "u", none, false, 0⟩,
           ⟨2, "B", "bB", "dB", "u", none, false, 0⟩,
           ⟨3, "C", "bC", "dC", "u", none, false, 0⟩]
          ⟨none, none, none, some "2"⟩).drop ((((1 : Int) - 1) * 2)).toNat).take (2 : Int).toNat ∧
      docs.length ≤ (2 : Int).toNat ∧
      pag.page = 1 ∧
      pag.limit = 2 ∧
      pag.total = (matchingRecords
          [⟨1, "A", "bA", "dA", "u", none, false, 0⟩,
           ⟨2, "B", "bB", "dB", "u", none, false, 0⟩,
           ⟨3, "C", "bC", "dC", "u", none, false, 0⟩]
          ⟨none, none, none, some "2"⟩).length ∧
      pag.count = docs.length ∧
      1 ≤ pag.pages ∧
      pag.total ≤ pag.pages * (2 : Int).toNat ∧
      (pag.pages = 1 ∨ (pag.pages - 1) * (2 : Int).toNat < pag.total) ∧
      (pag.total = 0 → pag.pages = 1 ∧ docs = []) :=
  (getPhones_pagination_spec
      [⟨1, "A", "bA", "dA", "u", none, false, 0⟩,
       ⟨2, "B", "bB", "dB", "u", none, false, 0⟩,
       ⟨3, "C", "bC", "dC", "u", none, false, 0⟩]
      ⟨none, none, none, some "2"⟩).2 1 2 rfl (by decide) (by decide)

/-- C2 counterexample: a non-numeric `page` (or `limit`) value is *not*
clamped to 1.  `parseInt("abc", 10)` is `NaN` and `Math.max(NaN, 1)` is
`NaN` (modelled `none`), so the effective value is not the claimed 1 and
not a positive integer at all. -/
theorem effPage_nonNumeric_not_clamped :
    effPage (some "abc") = none ∧ effPage (some "abc") ≠ some 1 ∧
    effLimit (some "abc") = none := by
  refine ⟨by decide, by decide, by decide⟩

/-- C2 (amended): whenever the effective page or limit is a number it is a
positive integer; an absent `page` defaults to 1 (so a present `limit` with
an absent `page` paginates from page 1); a value that `parseInt` does read
as a number ≤ 0 is clamped to 1; but a value `parseInt` cannot read at all
yields `NaN` rather than 1. -/
theorem effectiveParams_spec (p l : Option String) :
    (∀ x, effPage p = some x → 1 ≤ x) ∧
    (∀ x, effLimit l = some x → 1 ≤ x) ∧
    effPage none = some 1 ∧
    (∀ s n, s ≠ "" → jsParseInt s = some n → n ≤ 0 →
      effPage (some s) = some 1 ∧ effLimit (some s) = some 1) := by
  refine ⟨?_, ?_, by decide, ?_⟩
  · intro x hx
    unfold effPage jsMax1 at hx
    cases h : jsParseInt (jsOr p "1") with
    | none => rw [h] at hx; exact absurd hx (by simp)
    | some v =>
      rw [h] at hx
      simp only [Option.some.injEq] at hx
      subst hx
      exact le_max_right v 1
  · intro x hx
    unfold effLimit jsMax1 at hx
    cases h : jsParseInt (jsOr l "10") with
    | none => rw [h] at hx; exact absurd hx (by simp)
    | some v =>
      rw [h] at hx
      simp only [Option.some.injEq] at hx
      subst hx
      exact le_max_right v 1
  · intro s n hs hparse hn
    have hmax : max n 1 = 1 := max_eq_right (by omega)
    constructor
    · simp [effPage, jsOr, hs, hparse, jsMax1, hmax]
    · simp [effLimit, jsOr, hs, hparse, jsMax1, hmax]

/-- C2 witness: a negative page parameter is clamped to 1. -/
theorem effectiveParams_spec_witness :
    effPage (some "-5") = some 1 ∧ effLimit (some "-5") = some 1 :=
  (effectiveParams_spec (some "-5") (some "-5")).2.2.2 "-5" (-5) (by decide)
    (by decide) (by decide)

/-- C6: a PATCH whose body supplies no recognized mutable field is rejected
with the `No valid fields to patch` validation error, and the store — every
record, its `date` timestamp included — is returned unchanged: the handler
errors out before `findByIdAndUpdate` is ever issued. -/
theorem patch_emptyBody_rejected (store : List Phone) (id : Nat) (now : Int) :
    patchPhone store id ⟨none, none, none, none, none, none⟩ now =
      (.badRequest "No valid fields to patch", store) := rfl

/-- C7 counterexample: the handler compares `lastModified` at full
millisecond precision, not truncated to seconds.  For a record modified at
1500 ms and `If-Modified-Since` = 1000 ms (a whole second), the truncated
timestamp is at or before the header — the claim demands 304 — yet the code
answers 200 with the full record. -/
theorem conditionalGet_truncation_cex :
    truncSec 1500 ≤ 1000 ∧
    getPhoneDetail [⟨1, "t", "b", "d", "u", none, false, 1500⟩] 1 (some 1000) =
      .ok ⟨1, "t", "b", "d", "u", none, false, 1500⟩ 1000 ∧
    getPhoneDetail [⟨1, "t", "b", "d", "u", none, false, 1500⟩] 1 (some 1000) ≠
      .notModified := by
  refine ⟨by decide, by decide, by decide⟩

/-- C7 (amended): on an existing record, the response is 304 (no body)
exactly when the stored `lastModified` — at full millisecond precision, not
truncated — is at or before the `If-Modified-Since` timestamp; otherwise
(and when the header is absent) the full record is returned with a
`Last-Modified` header equal to the stored timestamp truncated to
one-second precision.  A sub-second change within the same second as the
header therefore counts as *modified*. -/
theorem conditionalGet_spec (store : List Phone) (id : Nat) (t : Int) (ph : Phone)
    (hfind : storeFind store id = some ph) :
    (ph.date ≤ t → getPhoneDetail store id (some t) = .notModified) ∧
    (t < ph.date → getPhoneDetail store id (some t) = .ok ph (truncSec ph.date)) ∧
    getPhoneDetail store id none = .ok ph (truncSec ph.date) := by
  refine ⟨fun h => ?_, fun h => ?_, ?_⟩ <;>
    simp only [getPhoneDetail, hfind]
  · rw [if_pos h]
  · rw [if_neg (by omega)]

/-- C7 witness: an `If-Modified-Since` at or after the stored timestamp
yields 304, and one strictly before yields 200 with the truncated header. -/
theorem conditionalGet_spec_witness :
    getPhoneDetail [⟨1, "t", "b", "d", "u", none, false, 1500⟩] 1 (some 2000) =
      .notModified ∧
    getPhoneDetail [⟨1, "t", "b", "d", "u", none, false, 1500⟩] 1 (some 1400) =
      .ok ⟨1, "t", "b", "d", "u", none, false, 1500⟩ 1000 :=
  ⟨(conditionalGet_spec [⟨1, "t", "b", "d", "u", none, false, 1500⟩] 1 2000
      ⟨1, "t", "b", "d", "u", none, false, 1500⟩ (by decide)).1 (by decide),
   (conditionalGet_spec [⟨1, "t", "b", "d", "u", none, false, 1500⟩] 1 1400
      ⟨1, "t", "b", "d", "u", none, false, 1500⟩ (by decide)).2.1 (by decide)⟩

/-- C8: seeding replaces the whole collection: the result is exactly the
list of freshly generated records — independent of the previous store
contents — whose count is `max(amount, 5)` when the supplied amount parses
to a number, and the fixed default 10 when it does not, hence always at
least 5. -/
theorem seed_spec (store : List Phone) (amount : Option JsVal) (gen : Nat → Phone) :
    (∀ n, jsParseIntVal amount = some n →
      seedPhones store amount gen = (List.range (max n 5).toNat).map gen ∧
      (seedPhones store amount gen).length = (max n 5).toNat) ∧
    (jsParseIntVal amount = none →
      seedPhones store amount gen = (List.range 10).map gen) ∧
    (∀ ph ∈ seedPhones store amount gen, ∃ i, ph = gen i) ∧
    seedPhones store amount gen = seedPhones [] amount gen ∧
    5 ≤ (seedPhones store amount gen).length := by
  refine ⟨?_, ?_, ?_, rfl, ?_⟩
  · intro n hn
    unfold seedPhones
    rw [hn]
    exact ⟨rfl, by simp⟩
  · intro hn
    unfold seedPhones
    rw [hn]
  · intro ph hph
    unfold seedPhones at hph
    rcases List.mem_map.mp hph with ⟨i, _, hi⟩
    exact ⟨i, hi.symm⟩
  · unfold seedPhones
    cases h : jsParseIntVal amount with
    | none => simp
    | some n =>
      simp only [List.length_map, List.length_range]
      have h5 : (5 : Int) ≤ max n 5 := le_max_right _ _
      omega

/-- C8 witness: seeding with `{amount: 3}` produces exactly 5 records
(floor enforced), whatever was stored before. -/
theorem seed_spec_witness :
    (seedPhones [⟨9, "old", "b", "d", "u", none, false, 0⟩] (some (.num 3))
        (fun i => ⟨i, "t", "b", "d", "u", none, false, 0⟩)).length = (max (3 : Int) 5).toNat :=
  ((seed_spec [⟨9, "old", "b", "d", "u", none, false, 0⟩] (some (.num 3))
    (fun i => ⟨i, "t", "b", "d", "u", none, false, 0⟩)).1 3 rfl).2

/-- C9 counterexample: the middleware consults the `_method` query value
whenever the header string is falsy — absent *or empty*.  For a POST whose
override header is present but empty and whose query says `_method=delete`,
the code rewrites the method to DELETE, while the claim (header present,
declared value the empty string, not an allowed verb) says the method stays
POST. -/
theorem methodOverride_emptyHeader_cex :
    methodOverride ⟨"POST", some "", some "delete"⟩ = "DELETE" ∧
    specEffectiveMethod (declaredOverrideClaim ⟨"POST", some "", some "delete"⟩)
      "POST" = "POST" := by
  refine ⟨by decide, by decide⟩

/-- C9 (amended): the middleware rewrites the effective method exactly when
the original method is POST and the declared override value — the header's
value, or the `_method` query value when the header is absent *or empty*,
compared case-insensitively — is one of PATCH, PUT or DELETE; in every
other case the method is left unchanged. -/
theorem methodOverride_spec (r : Req) :
    methodOverride r = specEffectiveMethod (declaredOverride r) r.method := by
  have h0 : jsToUpper "" = "" := rfl
  have hne : ∀ s : String, s ≠ "" → jsToUpper s ≠ "" := by
    intro s hs hc
    apply hs
    have hl : (jsToUpper s).data = [] := by rw [hc]
    simp only [jsToUpper] at hl
    cases s with
    | mk data => cases data with
      | nil => rfl
      | cons c cs => simp at hl
  unfold methodOverride specEffectiveMethod declaredOverride overrideVerb
  rcases r with ⟨m, oh, mq⟩
  by_cases hm : m = "POST"
  · subst hm
    simp only [ne_eq, not_true_eq_false, if_false, reduceIte]
    rcases oh with _ | h
    · simp [jsOr, h0]
    · by_cases hh : h = ""
      · subst hh
        simp [jsOr, h0]
      · simp [jsOr, hh, hne h hh]
  · simp [hm]

end PhonesApi
